import Mathlib

/-!
Verification of the refactor-mcp provider routing, fallback, validation,
backup-wrapper and rope-backend logic, shallowly embedded from the Python
sources (`refactor_mcp/engine.py`, `refactor_mcp/providers/registry.py`,
`refactor_mcp/providers/rope/rope.py`, `refactor_mcp/models/errors.py`,
`refactor_mcp/shared/backup.py`).

Conventions of the embedding:
* Python `list.sort` (stable) is modelled by `pySort`, a stable insertion
  sort: each element is inserted after all already-placed elements that
  compare less-or-equal, which reproduces Python's stability.
* Python floats (provider health scores) are modelled as rationals; the
  claims proved here concern control flow and orderings, not rounding.
* Python dictionaries keyed by provider name are modelled as total
  functions `String → _` (registration initialises every key the engine
  later reads).
* Exceptions are modelled with `Except`; a raised exception is `.error`.
-/

namespace RefactorMcp

/-- Stable insertion used by `pySort`: `x` is placed after every element
`y` with `le y x = true`, hence after all elements tied with `x`. -/
def insertLe (le : α → α → Bool) (x : α) : List α → List α
  | [] => [x]
  | y :: ys => if le y x then y :: insertLe le x ys else x :: y :: ys

/-- Tail of the stable sort: fold the remaining input into the sorted
accumulator, left to right (preserving encounter order among ties). -/
def pySortAux (le : α → α → Bool) : List α → List α → List α
  | acc, [] => acc
  | acc, x :: xs => pySortAux le (insertLe le x acc) xs

/-- Model of Python's stable `list.sort` / `sorted` with a boolean
less-or-equal comparison derived from the sort key. -/
def pySort (le : α → α → Bool) (l : List α) : List α :=
  pySortAux le [] l

theorem insertLe_perm (le : α → α → Bool) (x : α) (l : List α) :
    (insertLe le x l).Perm (x :: l) := by
  induction l with
  | nil => simp [insertLe]
  | cons y ys ih =>
    by_cases h : le y x = true
    · simp only [insertLe, h, if_true]
      exact (List.Perm.cons y ih).trans (List.Perm.swap x y ys)
    · simp [insertLe, h]

theorem mem_insertLe {le : α → α → Bool} {x z : α} {l : List α} :
    z ∈ insertLe le x l ↔ z = x ∨ z ∈ l := by
  simpa using (insertLe_perm le x l).mem_iff

theorem pySortAux_perm (le : α → α → Bool) (l : List α) :
    ∀ acc : List α, (pySortAux le acc l).Perm (acc ++ l) := by
  induction l with
  | nil => intro acc; simp [pySortAux]
  | cons x xs ih =>
    intro acc
    refine ((ih _).trans ?_)
    refine ((insertLe_perm le x acc).append_right xs).trans ?_
    simpa using
      (List.perm_middle : (acc ++ x :: xs).Perm (x :: (acc ++ xs))).symm

theorem pySort_perm (le : α → α → Bool) (l : List α) : (pySort le l).Perm l := by
  simpa using pySortAux_perm le l []

theorem insertLe_pairwise {le : α → α → Bool}
    (htrans : ∀ a b c, le a b = true → le b c = true → le a c = true)
    (htot : ∀ a b, le a b = true ∨ le b a = true)
    {l : List α} (x : α)
    (hl : l.Pairwise (fun a b => le a b = true)) :
    (insertLe le x l).Pairwise (fun a b => le a b = true) := by
  induction l with
  | nil => simp [insertLe]
  | cons y ys ih =>
    rcases List.pairwise_cons.mp hl with ⟨hy, hys⟩
    by_cases h : le y x = true
    · simp only [insertLe, h, if_true]
      refine List.pairwise_cons.mpr ⟨?_, ih hys⟩
      intro z hz
      rcases mem_insertLe.mp hz with rfl | hzys
      · exact h
      · exact hy z hzys
    · simp only [insertLe, h, if_false]
      refine List.pairwise_cons.mpr ⟨?_, List.pairwise_cons.mpr ⟨hy, hys⟩⟩
      intro z hz
      have hxy : le x y = true := by
        rcases htot x y with h' | h'
        · exact h'
        · exact absurd h' h
      rcases List.mem_cons.mp hz with rfl | hzys
      · exact hxy
      · exact htrans x y z hxy (hy z hzys)

theorem pySortAux_pairwise {le : α → α → Bool}
    (htrans : ∀ a b c, le a b = true → le b c = true → le a c = true)
    (htot : ∀ a b, le a b = true ∨ le b a = true)
    (l : List α) :
    ∀ acc : List α, acc.Pairwise (fun a b => le a b = true) →
      (pySortAux le acc l).Pairwise (fun a b => le a b = true) := by
  induction l with
  | nil => intro acc hacc; simpa [pySortAux] using hacc
  | cons x xs ih =>
    intro acc hacc
    exact ih _ (insertLe_pairwise htrans htot x hacc)

theorem pySort_pairwise {le : α → α → Bool}
    (htrans : ∀ a b c, le a b = true → le b c = true → le a c = true)
    (htot : ∀ a b, le a b = true ∨ le b a = true)
    (l : List α) :
    (pySort le l).Pairwise (fun a b => le a b = true) :=
  pySortAux_pairwise htrans htot l [] (by simp)

theorem filter_insertLe {le : α → α → Bool} {p : α → Bool}
    (htrans : ∀ a b c, le a b = true → le b c = true → le a c = true)
    (hclass : ∀ a b, p a = true → p b = true → le a b = true)
    {l : List α} (x : α)
    (hl : l.Pairwise (fun a b => le a b = true)) :
    (insertLe le x l).filter p
      = l.filter p ++ (if p x = true then [x] else []) := by
  induction l with
  | nil => by_cases h : p x = true <;> simp [insertLe, List.filter, h]
  | cons y ys ih =>
    rcases List.pairwise_cons.mp hl with ⟨hy, hys⟩
    by_cases h : le y x = true
    · by_cases hpy : p y = true <;>
        simp [insertLe, h, List.filter_cons, hpy, ih hys]
    · by_cases hpx : p x = true
      · have hnone : ∀ z ∈ y :: ys, p z = false := by
          intro z hz
          by_contra hne
          have hpz : p z = true := by
            cases hzv : p z with
            | false => exact absurd hzv hne
            | true => rfl
          have hzx : le z x = true := hclass z x hpz hpx
          rcases List.mem_cons.mp hz with rfl | hzys
          · exact h hzx
          · exact h (htrans y z x (hy z hzys) hzx)
        have hfilter : (y :: ys).filter p = [] :=
          List.filter_eq_nil_iff.mpr (fun z hz => by simp [hnone z hz])
        simp [insertLe, h, List.filter_cons, hpx, hfilter]
      · have hpx' : p x = false := by
          cases hxv : p x with
          | false => rfl
          | true => exact absurd hxv hpx
        simp [insertLe, h, List.filter_cons, hpx']

theorem filter_pySortAux {le : α → α → Bool} {p : α → Bool}
    (htrans : ∀ a b c, le a b = true → le b c = true → le a c = true)
    (htot : ∀ a b, le a b = true ∨ le b a = true)
    (hclass : ∀ a b, p a = true → p b = true → le a b = true)
    (l : List α) :
    ∀ acc : List α, acc.Pairwise (fun a b => le a b = true) →
      (pySortAux le acc l).filter p = acc.filter p ++ l.filter p := by
  induction l with
  | nil => intro acc _; simp [pySortAux]
  | cons x xs ih =>
    intro acc hacc
    have hstep := filter_insertLe htrans hclass x hacc
    have hrec := ih (insertLe le x acc) (insertLe_pairwise htrans htot x hacc)
    by_cases hpx : p x = true <;>
      simp [pySortAux, hrec, hstep, List.filter_cons, hpx]

theorem filter_pySort {le : α → α → Bool} {p : α → Bool}
    (htrans : ∀ a b c, le a b = true → le b c = true → le a c = true)
    (htot : ∀ a b, le a b = true ∨ le b a = true)
    (hclass : ∀ a b, p a = true → p b = true → le a b = true)
    (l : List α) :
    (pySort le l).filter p = l.filter p := by
  simpa using filter_pySortAux htrans htot hclass l [] (by simp)

/-! ## Provider registry (`refactor_mcp/providers/registry.py`) -/

/-- A refactoring provider as the registry sees it: a name and the set of
languages for which `supports_language` answers true.  (The registry never
queries anything else of the provider when ordering them.) -/
structure RegProvider where
  name : String
  langs : List String
deriving DecidableEq

/-- `provider.supports_language(language)`. -/
def RegProvider.supportsLanguage (p : RegProvider) (lang : String) : Bool :=
  p.langs.contains lang

/-- Registry entry (`ProviderInfo` dataclass): provider plus its
registration priority. -/
structure ProviderInfo where
  provider : RegProvider
  priority : Int
deriving DecidableEq

/-- `register_provider(provider, priority)` appends a `ProviderInfo` to the
registry's `_providers` list (and clears caches, which we model by always
recomputing). -/
def registerProvider (regs : List ProviderInfo) (p : RegProvider)
    (priority : Int) : List ProviderInfo :=
  regs ++ [ProviderInfo.mk p priority]

/-- Comparison used by `providers.sort(key=lambda x: x.priority,
reverse=True)`: a stable descending sort by priority, so `a` may stay
before `b` exactly when `a.priority ≥ b.priority`. -/
def regLe (a b : ProviderInfo) : Bool :=
  decide (b.priority ≤ a.priority)

/-- `get_providers(language)` before the final `.provider` projection:
filter the registration list to entries supporting the language, then
stable-sort by priority descending. -/
def getProviderInfos (regs : List ProviderInfo) (lang : String) :
    List ProviderInfo :=
  pySort regLe (regs.filter (fun e => e.provider.supportsLanguage lang))

/-- `get_providers(language)`: the ordered providers themselves. -/
def getProviders (regs : List ProviderInfo) (lang : String) :
    List RegProvider :=
  (getProviderInfos regs lang).map ProviderInfo.provider

theorem regLe_trans : ∀ a b c, regLe a b = true → regLe b c = true →
    regLe a c = true := by
  intro a b c hab hbc
  simp only [regLe, decide_eq_true_eq] at *
  exact le_trans hbc hab

theorem regLe_total : ∀ a b, regLe a b = true ∨ regLe b a = true := by
  intro a b
  simp only [regLe, decide_eq_true_eq]
  exact le_total b.priority a.priority

theorem getProviderInfos_pairwise (regs : List ProviderInfo) (lang : String) :
    (getProviderInfos regs lang).Pairwise
      (fun a b => b.priority ≤ a.priority) := by
  have h := pySort_pairwise regLe_trans regLe_total
    (regs.filter (fun e => e.provider.supportsLanguage lang))
  exact h.imp (fun hab => by simpa [regLe, decide_eq_true_eq] using hab)

theorem getProviderInfos_perm (regs : List ProviderInfo) (lang : String) :
    (getProviderInfos regs lang).Perm
      (regs.filter (fun e => e.provider.supportsLanguage lang)) :=
  pySort_perm _ _

/-- Claim C3: `get_providers(language)` filters to the providers supporting
the language and stable-sorts them by priority descending.  With
pairwise-distinct priorities the output is independent of the registration
order; entries of equal priority stay in registration order. -/
theorem c3_get_providers_priority_order
    (regs regs2 : List ProviderInfo) (lang : String) :
    (getProviderInfos regs lang).Pairwise
        (fun a b => b.priority ≤ a.priority)
    ∧ (∀ k : Int,
        (getProviderInfos regs lang).filter (fun e => decide (e.priority = k))
          = (regs.filter (fun e => e.provider.supportsLanguage lang)).filter
              (fun e => decide (e.priority = k)))
    ∧ (regs.Perm regs2 →
        regs.Pairwise (fun a b => a.priority ≠ b.priority) →
        getProviders regs lang = getProviders regs2 lang) := by
  refine ⟨getProviderInfos_pairwise regs lang, ?_, ?_⟩
  · intro k
    refine filter_pySort regLe_trans regLe_total ?_ _
    intro a b ha hb
    simp only [decide_eq_true_eq] at ha hb
    simp [regLe, ha, hb]
  · intro hperm hdist
    have hdist2 : regs2.Pairwise (fun a b => a.priority ≠ b.priority) :=
      ((hperm.pairwise_iff (fun hab => Ne.symm hab)).mp hdist)
    suffices hinfos : getProviderInfos regs lang = getProviderInfos regs2 lang by
      simp [getProviders, hinfos]
    have hfperm :
        (regs.filter (fun e => e.provider.supportsLanguage lang)).Perm
          (regs2.filter (fun e => e.provider.supportsLanguage lang)) :=
      hperm.filter _
    have hchain : (getProviderInfos regs lang).Perm
        (getProviderInfos regs2 lang) :=
      ((getProviderInfos_perm regs lang).trans hfperm).trans
        (getProviderInfos_perm regs2 lang).symm
    have hstrict : ∀ (rs : List ProviderInfo),
        rs.Pairwise (fun a b => a.priority ≠ b.priority) →
        (getProviderInfos rs lang).Pairwise
          (fun a b => b.priority < a.priority) := by
      intro rs hrs
      have hne : (getProviderInfos rs lang).Pairwise
          (fun a b => a.priority ≠ b.priority) := by
        have hsub : (rs.filter
            (fun e => e.provider.supportsLanguage lang)).Pairwise
            (fun a b => a.priority ≠ b.priority) :=
          List.Pairwise.sublist (List.filter_sublist rs) hrs
        exact ((getProviderInfos_perm rs lang).pairwise_iff
          (fun hab => Ne.symm hab)).mpr hsub
      exact ((getProviderInfos_pairwise rs lang).and hne).imp
        (fun hab => lt_of_le_of_ne hab.1 (Ne.symm hab.2))
    haveI : IsAntisymm ProviderInfo (fun a b => b.priority < a.priority) :=
      ⟨fun a b h1 h2 => absurd h2 (not_lt.mpr h1.le)⟩
    exact List.eq_of_perm_of_sorted hchain (hstrict regs hdist)
      (hstrict regs2 hdist2)

/-- Witness for C3: two registries holding the same three providers with
distinct priorities in different registration orders produce the same
ordered provider list. -/
theorem c3_get_providers_priority_order_witness :
    getProviders
        [ProviderInfo.mk (RegProvider.mk "rope" ["python"]) 1,
         ProviderInfo.mk (RegProvider.mk "tree" ["python", "rust"]) 5,
         ProviderInfo.mk (RegProvider.mk "llm" ["python"]) 3] "python"
      = getProviders
        [ProviderInfo.mk (RegProvider.mk "llm" ["python"]) 3,
         ProviderInfo.mk (RegProvider.mk "rope" ["python"]) 1,
         ProviderInfo.mk (RegProvider.mk "tree" ["python", "rust"]) 5]
        "python" :=
  (c3_get_providers_priority_order _ _ "python").2.2 (by decide) (by decide)

/-! ## Refactoring engine (`refactor_mcp/engine.py`) -/

/-- A result object returned (not raised) by a provider operation, e.g. a
`RenameResult`.  `success` may be `false` (a returned business-level
failure such as a naming conflict); `errorType` is its `error_type` field
and `tag` stands for the rest of the payload. -/
structure OpResult where
  success : Bool
  errorType : String
  tag : Nat
deriving DecidableEq

/-- An exception raised by a provider (infrastructure fault). -/
inductive Exc where
  | exc (msg : String)
deriving DecidableEq

/-- What one provider call does: return a result object or raise. -/
inductive Outcome where
  | ret (r : OpResult)
  | exn (e : Exc)
deriving DecidableEq

/-- A provider as `RefactoringEngine` sees it.  `priorityAttr` models
`getattr(provider, "priority", 100)` (absent attribute = `none`);
`caps` models `get_capabilities(language)` as an association list with
default `[]`; `behavior` gives, per operation name, what invoking that
operation does (return or raise). -/
structure EngProvider where
  name : String
  priorityAttr : Option Int
  langs : List String
  caps : List (String × List String)
  behavior : List (String × Outcome)
deriving DecidableEq

/-- `provider.supports_language(language)`. -/
def EngProvider.supportsLanguage (p : EngProvider) (lang : String) : Bool :=
  p.langs.contains lang

/-- `provider.get_capabilities(language)`. -/
def EngProvider.getCapabilities (p : EngProvider) (lang : String) :
    List String :=
  (p.caps.lookup lang).getD []

/-- `getattr(provider, "priority", 100)`. -/
def EngProvider.priority (p : EngProvider) : Int :=
  p.priorityAttr.getD 100

/-- Invoking `provider.<operation>(params)`; the engine's dispatch raises
`ValueError` for an operation name outside the behaviour table. -/
def EngProvider.run (p : EngProvider) (op : String) : Outcome :=
  (p.behavior.lookup op).getD (.exn (.exc "ValueError: Unknown operation"))

/-- Mutable engine bookkeeping: `_provider_health` and the
`call_count` / `failure_count` entries of `_provider_metrics`, keyed by
provider name.  Python floats are modelled as rationals. -/
structure EngineState where
  health : String → ℚ
  callCount : String → Nat
  failCount : String → Nat

/-- Pointwise update of a string-keyed table. -/
def update (f : String → β) (k : String) (v : β) : String → β :=
  fun s => if s = k then v else f s

/-- The engine error taxonomy the fallback path can surface
(`models/errors.py`).  `operationUnsupported` is the spec's
`OperationUnsupported` terminal failure; the engine source never
constructs it, which is exactly what claim C4 is about. -/
inductive EngError where
  | unsupportedLanguage (lang : String)
  | providerError (provider : String) (operation : String) (original : Exc)
  | validationError (field : String) (value : String) (reason : String)
  | operationUnsupported (lang : String) (operation : String)
deriving DecidableEq

/-- `RefactoringEngine._execute_with_provider`: bump `call_count`, run the
operation; on a returned result nudge health up by `0.01` (clamped to 1);
on a raise bump `failure_count` and set health to
`max 0 (1 - failure_count/call_count)`; the exception is re-raised. -/
def executeWithProvider (st : EngineState) (p : EngProvider) (op : String) :
    EngineState × Outcome :=
  let cc := st.callCount p.name + 1
  let st1 : EngineState := { st with callCount := update st.callCount p.name cc }
  match p.run op with
  | .ret r =>
      let h := st1.health p.name
      ({ st1 with health := update st1.health p.name (min 1 (h + 1 / 100)) },
        .ret r)
  | .exn e =>
      let fc := st1.failCount p.name + 1
      let rate : ℚ := (fc : ℚ) / (cc : ℚ)
      ({ st1 with
          failCount := update st1.failCount p.name fc,
          health := update st1.health p.name (max 0 (1 - rate)) },
        .exn e)

/-- Sort comparison of `_get_sorted_providers`:
`suitable_providers.sort(key=lambda x: (x[1], -x[2]))` — ascending
priority, then ascending negated health (= descending health). -/
def engLe (st : EngineState) (a b : EngProvider) : Bool :=
  decide (a.priority < b.priority ∨
    (a.priority = b.priority ∧ st.health b.name ≤ st.health a.name))

/-- `RefactoringEngine._get_sorted_providers(language, operation)`: keep
the providers that support the language and advertise the operation, then
stable-sort by `(priority, -health)`. -/
def getSortedProviders (st : EngineState) (providers : List EngProvider)
    (lang op : String) : List EngProvider :=
  pySort (engLe st) (providers.filter
    (fun p => p.supportsLanguage lang
      && (p.getCapabilities lang).contains op))

/-- The try-next loop of `_execute_with_fallback`, returning the final
engine state, the names of the providers invoked (in order), and the
result: the first returned result object, or the terminal error.  After
exhaustion: `ProviderError("all_providers", …)` around the last exception
when one was recorded, else `UnsupportedLanguageError`. -/
def fallbackLoop (lang op : String) :
    EngineState → Option Exc → List EngProvider →
    EngineState × List String × Except EngError OpResult
  | st, lastExc, [] =>
      (st, [], .error (match lastExc with
        | some e => .providerError "all_providers" op e
        | none => .unsupportedLanguage lang))
  | st, _, p :: rest =>
      match executeWithProvider st p op with
      | (st1, .ret r) => (st1, [p.name], .ok r)
      | (st1, .exn e) =>
          let next := fallbackLoop lang op st1 (some e) rest
          (next.1, p.name :: next.2.1, next.2.2)

/-- `RefactoringEngine._execute_with_fallback(language, operation, …)`:
raise `UnsupportedLanguageError` on an empty sorted candidate list,
otherwise run the try-next loop. -/
def executeWithFallback (st : EngineState) (providers : List EngProvider)
    (lang op : String) :
    EngineState × List String × Except EngError OpResult :=
  match getSortedProviders st providers lang op with
  | [] => (st, [], .error (.unsupportedLanguage lang))
  | p :: rest => fallbackLoop lang op st none (p :: rest)

/-- Claim C1: with a non-empty candidate list, a provider call that
*returns* a result object (success or not) makes that exact object the
final answer and invokes no further provider, while a provider call that
*raises* records the failure in that provider's metrics and health and
hands over to the next candidate. -/
theorem c1_return_final_raise_retries
    (st : EngineState) (providers : List EngProvider) (lang op : String)
    (p : EngProvider) (rest : List EngProvider)
    (hsorted : getSortedProviders st providers lang op = p :: rest) :
    (∀ r : OpResult, p.run op = .ret r →
      executeWithFallback st providers lang op
        = ((executeWithProvider st p op).1, [p.name], .ok r))
    ∧ (∀ e : Exc, p.run op = .exn e →
        executeWithFallback st providers lang op
          = ((fallbackLoop lang op (executeWithProvider st p op).1
                (some e) rest).1,
             p.name :: (fallbackLoop lang op (executeWithProvider st p op).1
                (some e) rest).2.1,
             (fallbackLoop lang op (executeWithProvider st p op).1
                (some e) rest).2.2)
        ∧ (executeWithProvider st p op).1.failCount p.name
            = st.failCount p.name + 1
        ∧ (executeWithProvider st p op).1.health p.name
            = max 0 (1 - ((st.failCount p.name + 1 : ℚ)
                / (st.callCount p.name + 1 : ℚ)))
        ∧ (∀ q rest2, rest = q :: rest2 →
            (fallbackLoop lang op (executeWithProvider st p op).1
                (some e) rest).2.1.head? = some q.name)) := by
  constructor
  · intro r hret
    simp [executeWithFallback, hsorted, fallbackLoop, executeWithProvider,
      hret]
  · intro e hexn
    refine ⟨?_, ?_, ?_, ?_⟩
    · simp [executeWithFallback, hsorted, fallbackLoop, executeWithProvider,
        hexn]
    · simp [executeWithProvider, hexn, update]
    · simp [executeWithProvider, hexn, update]
    · intro q rest2 hrest
      subst hrest
      cases hq : q.run op <;>
        simp [fallbackLoop, executeWithProvider, hq]

/-- Engine bookkeeping right after registration: every provider healthy
(1.0) with zeroed counters. -/
def freshEngineState : EngineState :=
  EngineState.mk (fun _ => 1) (fun _ => 0) (fun _ => 0)

/-- Witness fixture: a provider whose `rename_symbol` returns a
`success=False` naming-conflict result object. -/
def conflictingProvider : EngProvider :=
  EngProvider.mk "conflicting" (some 1) ["python"]
    [("python", ["rename_symbol"])]
    [("rename_symbol", .ret (OpResult.mk false "naming_conflict" 7))]

/-- Witness fixture: a lower-ranked provider whose `rename_symbol`
succeeds. -/
def spareProvider : EngProvider :=
  EngProvider.mk "spare" (some 2) ["python"]
    [("python", ["rename_symbol"])]
    [("rename_symbol", .ret (OpResult.mk true "" 8))]

/-- Witness for C1: a first candidate that returns a `success=False`
naming-conflict result is final — one invocation, the result object passed
through unchanged, the healthy second candidate never asked. -/
theorem c1_return_final_raise_retries_witness :
    executeWithFallback freshEngineState [conflictingProvider, spareProvider]
        "python" "rename_symbol"
      = ((executeWithProvider freshEngineState conflictingProvider
            "rename_symbol").1,
         ["conflicting"], .ok (OpResult.mk false "naming_conflict" 7)) :=
  (c1_return_final_raise_retries freshEngineState
      [conflictingProvider, spareProvider] "python" "rename_symbol"
      conflictingProvider [spareProvider] (by decide)).1
    (OpResult.mk false "naming_conflict" 7) (by decide)

instance {ε α : Type} [DecidableEq ε] [DecidableEq α] :
    DecidableEq (Except ε α) := fun a b =>
  match a, b with
  | .ok x, .ok y =>
      if h : x = y then isTrue (by rw [h]) else isFalse (by simp [h])
  | .error x, .error y =>
      if h : x = y then isTrue (by rw [h]) else isFalse (by simp [h])
  | .ok _, .error _ => isFalse (by simp)
  | .error _, .ok _ => isFalse (by simp)

theorem engLe_trans (st : EngineState) : ∀ a b c, engLe st a b = true →
    engLe st b c = true → engLe st a c = true := by
  intro a b c hab hbc
  simp only [engLe, decide_eq_true_eq] at *
  rcases hab with h1 | ⟨h1, h1h⟩ <;> rcases hbc with h2 | ⟨h2, h2h⟩
  · exact Or.inl (lt_trans h1 h2)
  · exact Or.inl (h2 ▸ h1)
  · exact Or.inl (h1 ▸ h2)
  · exact Or.inr ⟨h1.trans h2, le_trans h2h h1h⟩

theorem engLe_total (st : EngineState) : ∀ a b, engLe st a b = true ∨
    engLe st b a = true := by
  intro a b
  simp only [engLe, decide_eq_true_eq]
  rcases lt_trichotomy a.priority b.priority with h | h | h
  · exact Or.inl (Or.inl h)
  · rcases le_total (st.health b.name) (st.health a.name) with hh | hh
    · exact Or.inl (Or.inr ⟨h, hh⟩)
    · exact Or.inr (Or.inr ⟨h.symm, hh⟩)
  · exact Or.inr (Or.inl h)

/-- The candidate ordering exactly as claim C2 states it: higher priority
value first, and among equal priorities higher health first. -/
def c2ClaimedOrdering (st : EngineState) (l : List EngProvider) : Prop :=
  l.Pairwise (fun a b => b.priority < a.priority ∨
    (a.priority = b.priority ∧ st.health b.name ≤ st.health a.name))

/-- Counterexample to C2 as stated: two suitable providers with priorities
1 and 2 and equal health.  `_get_sorted_providers` puts the priority-1
provider first (its sort key `(x[1], -x[2])` is ascending in priority), so
the list is not ordered higher-priority-first. -/
theorem c2_counterexample_lower_priority_value_wins :
    getSortedProviders freshEngineState [conflictingProvider, spareProvider]
        "python" "rename_symbol"
      = [conflictingProvider, spareProvider]
    ∧ conflictingProvider.priority < spareProvider.priority
    ∧ ¬ c2ClaimedOrdering freshEngineState
        (getSortedProviders freshEngineState
          [conflictingProvider, spareProvider] "python" "rename_symbol") := by
  refine ⟨by decide, by decide, ?_⟩
  unfold c2ClaimedOrdering
  decide

/-- Claim C2 (amended): the candidate list holds exactly the providers
that support the language and advertise the operation; it is ordered with
*lower* numeric priority first (the engine treats a smaller `priority`
attribute as better), among equal priorities with higher current health
first, and health never overrides the priority ordering. -/
theorem c2_sorted_providers_characterization
    (st : EngineState) (providers : List EngProvider) (lang op : String) :
    (getSortedProviders st providers lang op).Perm
        (providers.filter (fun p => p.supportsLanguage lang
          && (p.getCapabilities lang).contains op))
    ∧ (getSortedProviders st providers lang op).Pairwise
        (fun a b => a.priority < b.priority ∨
          (a.priority = b.priority ∧ st.health b.name ≤ st.health a.name))
    ∧ (getSortedProviders st providers lang op).Pairwise
        (fun a b => a.priority ≤ b.priority) := by
  refine ⟨pySort_perm _ _, ?_, ?_⟩
  · exact (pySort_pairwise (engLe_trans st) (engLe_total st) _).imp
      (fun hab => by simpa [engLe, decide_eq_true_eq] using hab)
  · exact (pySort_pairwise (engLe_trans st) (engLe_total st) _).imp
      (fun hab => by
        have h := by simpa [engLe, decide_eq_true_eq] using hab
        rcases h with h | ⟨h, _⟩
        · exact le_of_lt h
        · exact le_of_eq h)

/-- Boolean test used to state C4 hypotheses decidably: does invoking the
operation on this provider raise? -/
def Outcome.isExn : Outcome → Bool
  | .ret _ => false
  | .exn _ => true

theorem fallbackLoop_all_raise (lang op : String) :
    ∀ (l : List EngProvider) (st : EngineState) (lastExc : Option Exc),
      l ≠ [] → (∀ q ∈ l, (q.run op).isExn = true) →
      ∃ q e, l.getLast? = some q ∧ q.run op = .exn e ∧
        (fallbackLoop lang op st lastExc l).2.2
          = .error (.providerError "all_providers" op e) := by
  intro l
  induction l with
  | nil => intro st lastExc hne _; exact absurd rfl hne
  | cons x t ih =>
    intro st lastExc _ hall
    have hx : (x.run op).isExn = true := hall x (List.mem_cons_self x t)
    obtain ⟨e, he⟩ : ∃ e, x.run op = .exn e := by
      cases hrx : x.run op with
      | ret r => rw [hrx] at hx; simp [Outcome.isExn] at hx
      | exn e => exact ⟨e, rfl⟩
    cases t with
    | nil =>
      refine ⟨x, e, rfl, he, ?_⟩
      simp [fallbackLoop, executeWithProvider, he]
    | cons y t2 =>
      have hall2 : ∀ q ∈ y :: t2, (q.run op).isExn = true :=
        fun q hq => hall q (List.mem_cons_of_mem x hq)
      obtain ⟨q, e2, hlast, hrun, hres⟩ :=
        ih ((executeWithProvider st x op).1) (some e) (by simp) hall2
      refine ⟨q, e2, ?_, hrun, ?_⟩
      · simpa [List.getLast?_cons_cons] using hlast
      · have : (fallbackLoop lang op st lastExc (x :: y :: t2)).2.2
            = (fallbackLoop lang op (executeWithProvider st x op).1
                (some e) (y :: t2)).2.2 := by
          simp [fallbackLoop, executeWithProvider, he]
        rw [this]
        have harg : (executeWithProvider st x op).1
            = ((executeWithProvider st x op).1) := rfl
        simpa [executeWithProvider, he] using hres

/-- Classifier for the spec's `OperationUnsupported` terminal failure. -/
def isOperationUnsupportedError : Except EngError OpResult → Bool
  | .error (.operationUnsupported _ _) => true
  | _ => false

/-- Witness fixture for C4: a provider that supports python but only
advertises `find_symbols`. -/
def analysisOnlyProvider : EngProvider :=
  EngProvider.mk "analysis_only" (some 1) ["python"]
    [("python", ["find_symbols"])]
    [("find_symbols", .ret (OpResult.mk true "" 1))]

/-- Counterexample to C4 as stated: a provider for the language exists but
does not advertise `rename_symbol`; the claim demands the terminal failure
`OperationUnsupported`, yet the engine raises `UnsupportedLanguageError`
(the `if not sorted_providers` branch is the same for both empty-list
causes). -/
theorem c4_counterexample_no_operation_unsupported :
    analysisOnlyProvider.supportsLanguage "python" = true
    ∧ ((analysisOnlyProvider.getCapabilities "python").contains
        "rename_symbol") = false
    ∧ (executeWithFallback freshEngineState [analysisOnlyProvider]
        "python" "rename_symbol").2.2
        = .error (.unsupportedLanguage "python")
    ∧ isOperationUnsupportedError
        (executeWithFallback freshEngineState [analysisOnlyProvider]
          "python" "rename_symbol").2.2 = false := by
  decide

/-- Claim C4 (amended): an empty candidate list always surfaces
`UnsupportedLanguageError` — also when providers for the language exist
but none advertises the operation (no distinct `OperationUnsupported`
failure exists); when the list is non-empty and every candidate raises,
the terminal failure is `ProviderError("all_providers", operation, e)`
wrapping the exception `e` of the last candidate tried. -/
theorem c4_empty_list_and_exhaustion
    (st : EngineState) (providers : List EngProvider) (lang op : String) :
    (getSortedProviders st providers lang op = [] →
      executeWithFallback st providers lang op
        = (st, [], .error (.unsupportedLanguage lang)))
    ∧ (getSortedProviders st providers lang op ≠ [] →
        (∀ q ∈ getSortedProviders st providers lang op,
          (q.run op).isExn = true) →
        ∃ q e, (getSortedProviders st providers lang op).getLast? = some q
          ∧ q.run op = .exn e
          ∧ (executeWithFallback st providers lang op).2.2
              = .error (.providerError "all_providers" op e)) := by
  constructor
  · intro hempty
    simp [executeWithFallback, hempty]
  · intro hne hall
    obtain ⟨q, e, hlast, hrun, hres⟩ :=
      fallbackLoop_all_raise lang op
        (getSortedProviders st providers lang op) st none hne hall
    refine ⟨q, e, hlast, hrun, ?_⟩
    rw [executeWithFallback.eq_def]
    cases hs : getSortedProviders st providers lang op with
    | nil => exact absurd hs hne
    | cons p rest => rw [hs] at hres; simpa using hres

/-- Witness fixtures for C4: two providers that always raise. -/
def raisingProviderA : EngProvider :=
  EngProvider.mk "raiserA" (some 1) ["python"]
    [("python", ["rename_symbol"])]
    [("rename_symbol", .exn (.exc "boomA"))]

/-- Second always-raising provider, tried after `raisingProviderA`. -/
def raisingProviderB : EngProvider :=
  EngProvider.mk "raiserB" (some 2) ["python"]
    [("python", ["rename_symbol"])]
    [("rename_symbol", .exn (.exc "boomB"))]

/-- Witness for C4 (amended): with two always-raising candidates the
terminal failure wraps the *last* exception (`boomB`). -/
theorem c4_empty_list_and_exhaustion_witness :
    ∃ q e,
      (getSortedProviders freshEngineState
        [raisingProviderA, raisingProviderB] "python"
        "rename_symbol").getLast? = some q
      ∧ q.run "rename_symbol" = .exn e
      ∧ (executeWithFallback freshEngineState
          [raisingProviderA, raisingProviderB] "python"
          "rename_symbol").2.2
          = .error (.providerError "all_providers" "rename_symbol" e) :=
  (c4_empty_list_and_exhaustion freshEngineState
      [raisingProviderA, raisingProviderB] "python" "rename_symbol").2
    (by decide) (by decide)

/-! ## Parameter validation and the backup-guarded wrapper
(`engine.py`, `models/errors.py`, `shared/backup.py`) -/

/-- First character class of `SYMBOL_NAME_PATTERN`, `[a-zA-Z_]`. -/
def isIdentStart (c : Char) : Bool :=
  c.isAlpha || c = '_'

/-- Continuation character class of `SYMBOL_NAME_PATTERN`,
`[a-zA-Z0-9_]`. -/
def isIdentRest (c : Char) : Bool :=
  c.isAlphanum || c = '_'

/-- A full match of `[a-zA-Z_][a-zA-Z0-9_]*`. -/
def isIdentStr : List Char → Bool
  | [] => false
  | c :: cs => isIdentStart c && cs.all isIdentRest

/-- `validate_symbol_name(name)` =
`bool(re.match(r"^[a-zA-Z_][a-zA-Z0-9_]*$", name))`.  Python's `$` in
`re.match` also matches just before a single trailing newline, so an
identifier followed by one final newline passes. -/
def validateSymbolName (s : String) : Bool :=
  let cs := s.data
  if cs.getLast? = some (Char.ofNat 10) then isIdentStr cs.dropLast
  else isIdentStr cs

/-- The parameter fields the engine's validator inspects: `new_name` is
`none` when the params object has no such attribute (Analyze/Find/Show
variants), and `file_path` defaults to the empty string. -/
structure Params where
  symbolName : String := ""
  newName : Option String := none
  filePath : String := ""
deriving DecidableEq

/-- The on-disk state the validator consults: existing regular files and
existing directories. -/
structure Fs where
  files : List String
  dirs : List String
deriving DecidableEq

/-- `Path(p).exists()`. -/
def Fs.existsPath (fs : Fs) (p : String) : Bool :=
  fs.files.contains p || fs.dirs.contains p

/-- `Path(p).is_file()`. -/
def Fs.isFile (fs : Fs) (p : String) : Bool :=
  fs.files.contains p

/-- `RefactoringEngine._validate_operation_params(operation, params)`:
the `new_name` identifier check fires only for `rename_symbol`; then a
declared (non-empty) `file_path` must exist and be a regular file.
Returns the raised `ValidationError`, or `none` when validation passes. -/
def validateOperationParams (fs : Fs) (op : String) (params : Params) :
    Option EngError :=
  let nameErr : Option EngError :=
    if op = "rename_symbol" then
      match params.newName with
      | some n =>
          if !(validateSymbolName n) then
            some (.validationError "new_name" n
              "Must be a valid identifier (letters, numbers, underscores only)")
          else none
      | none => none
    else none
  match nameErr with
  | some e => some e
  | none =>
      if params.filePath ≠ "" then
        if !(fs.existsPath params.filePath) then
          some (.validationError "file_path" params.filePath
            "File does not exist")
        else if !(fs.isFile params.filePath) then
          some (.validationError "file_path" params.filePath
            "Path is not a file")
        else none
      else none

/-- `RefactoringEngine._get_affected_files`: the source returns `[]`
unconditionally ("return empty list to disable backup functionality"). -/
def getAffectedFiles (op : String) (params : Params) : List String :=
  []

/-- The backup manager's `_active_backups` keys (`shared/backup.py`). -/
structure BackupMgr where
  active : List String
deriving DecidableEq

/-- Observable calls made to the external backup service. -/
inductive BackupCall where
  | create (opId : String)
  | cleanup (opId : String) (found : Bool)
  | restore (opId : String)
deriving DecidableEq

/-- `BackupManager.cleanup_backup(operation_id)`: remove and report `true`
when an active backup exists for the id, otherwise warn and report
`false`. -/
def cleanupBackup (m : BackupMgr) (opId : String) : BackupMgr × Bool :=
  if m.active.contains opId then (BackupMgr.mk (m.active.erase opId), true)
  else (m, false)

/-- `RefactoringEngine._create_operation_backup(operation_id, files)`:
with no files it reports success without calling the backup service;
otherwise it calls `create_backup` (recorded in the trace). -/
def createOperationBackup (m : BackupMgr) (opId : String)
    (files : List String) : BackupMgr × List BackupCall × Bool :=
  match files with
  | [] => (m, [], true)
  | _ => (BackupMgr.mk (opId :: m.active), [.create opId], true)

/-- `RefactoringEngine._cleanup_operation(operation_id, success)`: on
success call `cleanup_backup` (recording what it found); on failure keep
the backup and only log. -/
def cleanupOperation (m : BackupMgr) (opId : String) (success : Bool) :
    BackupMgr × List BackupCall :=
  if success then
    ((cleanupBackup m opId).1, [.cleanup opId (cleanupBackup m opId).2])
  else (m, [])

/-- The `except` clause of the `*_with_fallback` methods: re-raise
`UnsupportedLanguageError` and `ProviderError` as-is, wrap anything else
as `ProviderError("unknown", …)` (dead in this flow, since the executor
only raises the first two). -/
def wrapError (op : String) : EngError → EngError
  | .unsupportedLanguage l => .unsupportedLanguage l
  | .providerError a b c => .providerError a b c
  | _ => .providerError "unknown" op (.exc "wrapped")

/-- Common body of `rename_symbol_with_fallback` and
`extract_element_with_fallback`: validate, create the (empty) backup,
dispatch through the fallback executor, then clean up or preserve the
backup depending on whether the dispatch returned or raised.  Returns the
final engine state, backup-manager state, backup-service call trace,
provider invocation trace, and the returned result or raised error. -/
def destructiveWithFallback (op : String) (st : EngineState)
    (m : BackupMgr) (providers : List EngProvider) (fs : Fs)
    (params : Params) (opId : String) :
    EngineState × BackupMgr × List BackupCall × List String
      × Except EngError OpResult :=
  match validateOperationParams fs op params with
  | some e => (st, m, [], [], .error e)
  | none =>
      let cb := createOperationBackup m opId (getAffectedFiles op params)
      let d := executeWithFallback st providers "python" op
      match d.2.2 with
      | .ok r =>
          let co := cleanupOperation cb.1 opId true
          (d.1, co.1, cb.2.1 ++ co.2, d.2.1, .ok r)
      | .error e =>
          let co := cleanupOperation cb.1 opId false
          (d.1, co.1, cb.2.1 ++ co.2, d.2.1, .error (wrapError op e))

/-- `RefactoringEngine.rename_symbol_with_fallback`. -/
def renameSymbolWithFallback (st : EngineState) (m : BackupMgr)
    (providers : List EngProvider) (fs : Fs) (params : Params)
    (opId : String) :
    EngineState × BackupMgr × List BackupCall × List String
      × Except EngError OpResult :=
  destructiveWithFallback "rename_symbol" st m providers fs params opId

/-- `RefactoringEngine.extract_element_with_fallback`. -/
def extractElementWithFallback (st : EngineState) (m : BackupMgr)
    (providers : List EngProvider) (fs : Fs) (params : Params)
    (opId : String) :
    EngineState × BackupMgr × List BackupCall × List String
      × Except EngError OpResult :=
  destructiveWithFallback "extract_element" st m providers fs params opId

/-- Number of `cleanup_backup` calls for an operation id in a trace. -/
def countCleanupCalls (tr : List BackupCall) (opId : String) : Nat :=
  tr.countP (fun c => match c with
    | .cleanup i _ => decide (i = opId)
    | _ => false)

/-- Number of `restore_backup` calls for an operation id in a trace. -/
def countRestoreCalls (tr : List BackupCall) (opId : String) : Nat :=
  tr.countP (fun c => match c with
    | .restore i => decide (i = opId)
    | _ => false)

/-- Number of `create_backup` calls in a trace. -/
def countCreateCalls (tr : List BackupCall) : Nat :=
  tr.countP (fun c => match c with
    | .create _ => true
    | _ => false)

/-- Claim C5: for both destructive wrappers (`rename_symbol_with_fallback`
and `extract_element_with_fallback`), once validation passes: when the
dispatch *returns* a result object — success or a returned failure such as
a naming conflict — `cleanup_backup` is called exactly once for the
operation id and `restore_backup` never, and the result is passed through;
when the dispatch *raises*, `cleanup_backup` is never called, the
backup-manager state is left untouched (the backup is preserved), and the
error propagates. -/
theorem c5_backup_cleanup_on_return_preserved_on_raise
    (op : String) (st : EngineState) (m : BackupMgr)
    (providers : List EngProvider) (fs : Fs) (params : Params)
    (opId : String)
    (hop : op = "rename_symbol" ∨ op = "extract_element")
    (hvalid : validateOperationParams fs op params = none) :
    (∀ r, (executeWithFallback st providers "python" op).2.2 = .ok r →
      countCleanupCalls
          (destructiveWithFallback op st m providers fs params opId).2.2.1
          opId = 1
      ∧ countRestoreCalls
          (destructiveWithFallback op st m providers fs params opId).2.2.1
          opId = 0
      ∧ (destructiveWithFallback op st m providers fs params opId).2.2.2.2
          = .ok r)
    ∧ (∀ e, (executeWithFallback st providers "python" op).2.2 = .error e →
        countCleanupCalls
            (destructiveWithFallback op st m providers fs params opId).2.2.1
            opId = 0
        ∧ (destructiveWithFallback op st m providers fs params opId).2.1 = m
        ∧ (destructiveWithFallback op st m providers fs params opId).2.2.2.2
            = .error (wrapError op e))
    ∧ renameSymbolWithFallback st m providers fs params opId
        = destructiveWithFallback "rename_symbol" st m providers fs params
            opId
    ∧ extractElementWithFallback st m providers fs params opId
        = destructiveWithFallback "extract_element" st m providers fs params
            opId := by
  refine ⟨?_, ?_, rfl, rfl⟩
  · intro r hok
    simp [destructiveWithFallback, hvalid, hok, getAffectedFiles,
      createOperationBackup, cleanupOperation, cleanupBackup,
      countCleanupCalls, countRestoreCalls, List.countP_cons,
      List.countP_nil]
  · intro e herr
    simp [destructiveWithFallback, hvalid, herr, getAffectedFiles,
      createOperationBackup, cleanupOperation,
      countCleanupCalls, List.countP_nil]

/-- Witness for C5: a conflict-returning provider (a returned
`success=False` result) still triggers exactly one `cleanup_backup` call
and no restore, through `rename_symbol_with_fallback`'s shared body. -/
theorem c5_backup_cleanup_on_return_preserved_on_raise_witness :
    countCleanupCalls
        (destructiveWithFallback "rename_symbol" freshEngineState
          (BackupMgr.mk []) [conflictingProvider, spareProvider]
          (Fs.mk [] []) (Params.mk "helper" (some "handle_data") "")
          "op-1").2.2.1 "op-1" = 1
    ∧ countRestoreCalls
        (destructiveWithFallback "rename_symbol" freshEngineState
          (BackupMgr.mk []) [conflictingProvider, spareProvider]
          (Fs.mk [] []) (Params.mk "helper" (some "handle_data") "")
          "op-1").2.2.1 "op-1" = 0
    ∧ (destructiveWithFallback "rename_symbol" freshEngineState
          (BackupMgr.mk []) [conflictingProvider, spareProvider]
          (Fs.mk [] []) (Params.mk "helper" (some "handle_data") "")
          "op-1").2.2.2.2
        = .ok (OpResult.mk false "naming_conflict" 7) :=
  (c5_backup_cleanup_on_return_preserved_on_raise "rename_symbol"
      freshEngineState (BackupMgr.mk [])
      [conflictingProvider, spareProvider] (Fs.mk [] [])
      (Params.mk "helper" (some "handle_data") "") "op-1"
      (Or.inl rfl) (by decide)).1
    (OpResult.mk false "naming_conflict" 7) (by decide)

/-- Claim C10: the engine's affected-file computation is constantly empty,
so the backup step is a success-reporting no-op, the external
`create_backup` is never called during a destructive wrapper run, and the
success-path `cleanup_backup` call finds no active backup for the (fresh)
operation id. -/
theorem c10_backup_is_noop
    (op : String) (st : EngineState) (m : BackupMgr)
    (providers : List EngProvider) (fs : Fs) (params : Params)
    (opId : String)
    (hfresh : m.active.contains opId = false) :
    getAffectedFiles op params = []
    ∧ createOperationBackup m opId (getAffectedFiles op params)
        = (m, [], true)
    ∧ (validateOperationParams fs op params = none →
        countCreateCalls
          (destructiveWithFallback op st m providers fs params opId).2.2.1
          = 0)
    ∧ (validateOperationParams fs op params = none →
        ∀ r, (executeWithFallback st providers "python" op).2.2 = .ok r →
          (destructiveWithFallback op st m providers fs params opId).2.2.1
            = [BackupCall.cleanup opId false]
          ∧ (destructiveWithFallback op st m providers fs params
              opId).2.1 = m) := by
  refine ⟨rfl, rfl, ?_, ?_⟩
  · intro hvalid
    cases hd : (executeWithFallback st providers "python" op).2.2 with
    | ok r =>
        simp [destructiveWithFallback, hvalid, hd, getAffectedFiles,
          createOperationBackup, cleanupOperation, cleanupBackup, hfresh,
          countCreateCalls, List.countP_cons, List.countP_nil]
    | error e =>
        simp [destructiveWithFallback, hvalid, hd, getAffectedFiles,
          createOperationBackup, cleanupOperation,
          countCreateCalls, List.countP_nil]
  · intro hvalid r hok
    have hfresh2 : opId ∉ m.active := by simpa using hfresh
    constructor
    · simp [destructiveWithFallback, hvalid, hok, getAffectedFiles,
        createOperationBackup, cleanupOperation, cleanupBackup, hfresh2]
    · simp [destructiveWithFallback, hvalid, hok, getAffectedFiles,
        createOperationBackup, cleanupOperation, cleanupBackup, hfresh2]

/-- Witness for C10: a successful rename run makes no `create_backup`
call and its single cleanup call reports that no backup was found. -/
theorem c10_backup_is_noop_witness :
    countCreateCalls
        (destructiveWithFallback "rename_symbol" freshEngineState
          (BackupMgr.mk []) [spareProvider] (Fs.mk [] [])
          (Params.mk "helper" (some "handle_data") "") "op-2").2.2.1 = 0
    ∧ (destructiveWithFallback "rename_symbol" freshEngineState
        (BackupMgr.mk []) [spareProvider] (Fs.mk [] [])
        (Params.mk "helper" (some "handle_data") "") "op-2").2.2.1
        = [BackupCall.cleanup "op-2" false] := by
  have h := c10_backup_is_noop "rename_symbol" freshEngineState
    (BackupMgr.mk []) [spareProvider] (Fs.mk [] [])
    (Params.mk "helper" (some "handle_data") "") "op-2" (by decide)
  exact ⟨h.2.2.1 (by decide),
    (h.2.2.2 (by decide) (OpResult.mk true "" 8) (by decide)).1⟩

/-- Witness fixture for C7: a provider advertising `extract_element`. -/
def extractProvider : EngProvider :=
  EngProvider.mk "extractor" (some 1) ["python"]
    [("python", ["extract_element"])]
    [("extract_element", .ret (OpResult.mk true "" 9))]

/-- Counterexample to C7 as stated: an Extract request whose `new_name`
is `"1bad"` (no identifier match) sails through the engine validator —
which checks `new_name` only when `operation == "rename_symbol"` — and
the provider *is* dispatched and returns. -/
theorem c7_counterexample_extract_new_name_unchecked :
    validateSymbolName "1bad" = false
    ∧ validateOperationParams (Fs.mk [] []) "extract_element"
        (Params.mk "helper.block" (some "1bad") "") = none
    ∧ (extractElementWithFallback freshEngineState (BackupMgr.mk [])
        [extractProvider] (Fs.mk [] [])
        (Params.mk "helper.block" (some "1bad") "") "op-3").2.2.2.1
        = ["extractor"]
    ∧ (extractElementWithFallback freshEngineState (BackupMgr.mk [])
        [extractProvider] (Fs.mk [] [])
        (Params.mk "helper.block" (some "1bad") "") "op-3").2.2.2.2
        = .ok (OpResult.mk true "" 9) := by
  decide

/-- Claim C7 (amended): the engine-level validator rejects, before any
provider is invoked, a Rename whose `new_name` fails
`re.match(^[a-zA-Z_][a-zA-Z0-9_]*$)` (Python semantics: an identifier,
optionally followed by one trailing newline, is accepted), and — for both
Rename and Extract — a declared non-empty file path that does not exist on
disk; Extract's `new_name` is not checked at this boundary. -/
theorem c7_validation_boundary
    (st : EngineState) (m : BackupMgr) (providers : List EngProvider)
    (fs : Fs) (params : Params) (opId : String) :
    (∀ n, params.newName = some n → validateSymbolName n = false →
      renameSymbolWithFallback st m providers fs params opId
        = (st, m, [], [], .error (.validationError "new_name" n
            "Must be a valid identifier (letters, numbers, underscores only)")))
    ∧ (params.filePath ≠ "" → fs.existsPath params.filePath = false →
        (∀ n, params.newName = some n → validateSymbolName n = true) →
        renameSymbolWithFallback st m providers fs params opId
          = (st, m, [], [], .error (.validationError "file_path"
              params.filePath "File does not exist"))
        ∧ extractElementWithFallback st m providers fs params opId
          = (st, m, [], [], .error (.validationError "file_path"
              params.filePath "File does not exist"))) := by
  constructor
  · intro n hn hbad
    simp [renameSymbolWithFallback, destructiveWithFallback,
      validateOperationParams, hn, hbad]
  · intro hpath hmissing hname
    constructor
    · cases hn : params.newName with
      | none =>
          simp [renameSymbolWithFallback, destructiveWithFallback,
            validateOperationParams, hn, hpath, hmissing]
      | some n =>
          have hgood := hname n hn
          simp [renameSymbolWithFallback, destructiveWithFallback,
            validateOperationParams, hn, hgood, hpath, hmissing]
    · simp [extractElementWithFallback, destructiveWithFallback,
        validateOperationParams, hpath, hmissing]

/-- Witness for C7 (amended): a Rename with `new_name="1bad"` is rejected
as a `new_name` validation failure with no provider invoked. -/
theorem c7_validation_boundary_witness :
    renameSymbolWithFallback freshEngineState (BackupMgr.mk [])
        [conflictingProvider, spareProvider] (Fs.mk [] [])
        (Params.mk "helper" (some "1bad") "") "op-4"
      = (freshEngineState, BackupMgr.mk [], [], [],
          .error (.validationError "new_name" "1bad"
            "Must be a valid identifier (letters, numbers, underscores only)")) :=
  (c7_validation_boundary freshEngineState (BackupMgr.mk [])
      [conflictingProvider, spareProvider] (Fs.mk [] [])
      (Params.mk "helper" (some "1bad") "") "op-4").1
    "1bad" rfl (by decide)

/-! ## Rope backend (`refactor_mcp/providers/rope/rope.py`) -/

/-- Python AST nodes as the rope backend inspects them: function and
class definitions (which carry a `name` attribute), lambda expressions,
list/set/dict/generator comprehensions, and all other nodes (whose
optional `name?` models unrelated node kinds that also happen to carry a
`name` attribute, e.g. `ast.alias` or `ast.ExceptHandler`). -/
inductive Ast where
  | functionDef (name : String) (lineno : Nat) (children : List Ast)
  | classDef (name : String) (lineno : Nat) (children : List Ast)
  | lambdaE (lineno : Nat) (children : List Ast)
  | comprehension (lineno : Nat) (children : List Ast)
  | other (name? : Option String) (lineno : Nat) (children : List Ast)

/-- `ast.iter_child_nodes(node)`. -/
def Ast.children : Ast → List Ast
  | .functionDef _ _ cs => cs
  | .classDef _ _ cs => cs
  | .lambdaE _ cs => cs
  | .comprehension _ cs => cs
  | .other _ _ cs => cs

/-- `node.lineno`. -/
def Ast.lineno : Ast → Nat
  | .functionDef _ ln _ => ln
  | .classDef _ ln _ => ln
  | .lambdaE ln _ => ln
  | .comprehension ln _ => ln
  | .other _ ln _ => ln

/-- `getattr(node, "name", None)`: which nodes expose a `name`
attribute, and its value. -/
def Ast.nodeName : Ast → Option String
  | .functionDef n _ _ => some n
  | .classDef n _ _ => some n
  | .other n? _ _ => n?
  | .lambdaE _ _ => none
  | .comprehension _ _ => none

/-- `isinstance(node, ast.Lambda)`. -/
def Ast.isLambda : Ast → Bool
  | .lambdaE _ _ => true
  | _ => false

mutual
/-- Number of nodes in a subtree (used only to bound traversal steps). -/
def Ast.size : Ast → Nat
  | .functionDef _ _ cs => 1 + Ast.sizeList cs
  | .classDef _ _ cs => 1 + Ast.sizeList cs
  | .lambdaE _ cs => 1 + Ast.sizeList cs
  | .comprehension _ cs => 1 + Ast.sizeList cs
  | .other _ _ cs => 1 + Ast.sizeList cs
/-- Total node count of a forest. -/
def Ast.sizeList : List Ast → Nat
  | [] => 0
  | a :: as => Ast.size a + Ast.sizeList as
end

/-- Combined weight of a traversal queue, used to bound the number of
steps `ast.walk` can take. -/
def queueWeight (q : List Ast) : Nat :=
  Ast.sizeList q

theorem children_sizeOf_lt (t : Ast) :
    queueWeight t.children < Ast.size t := by
  cases t <;> simp [Ast.children, queueWeight, Ast.size]

theorem ast_sizeOf_pos (t : Ast) : 1 ≤ Ast.size t := by
  cases t <;> simp [Ast.size]

/-- Step-bounded body of `ast.walk`: each step dequeues one node, yields
it and enqueues its children at the back (CPython uses a `deque` the same
way).  The fuel only bounds the step count; `walkAux_fuel_irrelevant`
shows any fuel of at least `queueWeight q` gives the same traversal. -/
def walkAux : Nat → List Ast → List Ast
  | _, [] => []
  | 0, _ :: _ => []
  | fuel + 1, t :: rest => t :: walkAux fuel (rest ++ t.children)

/-- `ast.walk(node)` generalised to a queue: breadth-first traversal. -/
def walk (q : List Ast) : List Ast :=
  walkAux (queueWeight q) q

theorem sizeList_append (l1 l2 : List Ast) :
    Ast.sizeList (l1 ++ l2) = Ast.sizeList l1 + Ast.sizeList l2 := by
  induction l1 with
  | nil => simp [Ast.sizeList]
  | cons a l ih => simp [Ast.sizeList, ih]; omega

theorem queueWeight_step (t : Ast) (rest : List Ast) :
    queueWeight (rest ++ t.children) < queueWeight (t :: rest) := by
  have h := children_sizeOf_lt t
  simp only [queueWeight, Ast.sizeList, sizeList_append] at *
  omega

theorem walkAux_fuel_irrelevant :
    ∀ (fuel fuel2 : Nat) (q : List Ast), queueWeight q ≤ fuel →
      queueWeight q ≤ fuel2 → walkAux fuel q = walkAux fuel2 q := by
  intro fuel
  induction fuel with
  | zero =>
    intro fuel2 q h1 _
    cases q with
    | nil => cases fuel2 <;> simp [walkAux]
    | cons t rest =>
      exfalso
      have ht := ast_sizeOf_pos t
      simp only [queueWeight, Ast.sizeList] at h1
      omega
  | succ f ih =>
    intro fuel2 q h1 h2
    cases q with
    | nil => cases fuel2 <;> simp [walkAux]
    | cons t rest =>
      cases fuel2 with
      | zero =>
        exfalso
        have ht := ast_sizeOf_pos t
        simp only [queueWeight, Ast.sizeList] at h2
        omega
      | succ f2 =>
        have hstep := queueWeight_step t rest
        simp only [walkAux]
        rw [ih f2 (rest ++ t.children) (by omega) (by omega)]

/-- Unfolding law of the traversal: `walk` behaves as the unbounded
breadth-first queue recursion. -/
theorem walk_cons (t : Ast) (rest : List Ast) :
    walk (t :: rest) = t :: walk (rest ++ t.children) := by
  have hstep := queueWeight_step t rest
  have hpos := ast_sizeOf_pos t
  have hw : queueWeight (t :: rest)
      = (queueWeight (t :: rest) - 1) + 1 := by
    simp only [queueWeight, Ast.sizeList] at *
    omega
  unfold walk
  rw [hw]
  simp only [walkAux]
  rw [walkAux_fuel_irrelevant (queueWeight (t :: rest) - 1)
    (queueWeight (rest ++ t.children)) (rest ++ t.children)
    (by omega) (le_refl _)]

/-- A project file as rope sees it: its path, raw byte content, and the
AST parsed from that content. -/
structure Resource where
  path : String
  content : String
  tree : Ast

/-- `RopeProvider._check_rename_conflicts`: walk the AST of the symbol's
own resource and report every node whose `name` attribute equals the
proposed new name.  (The f-string quotes around the name are elided in
the modelled message.) -/
def checkRenameConflicts (res : Resource) (newName : String) :
    List String :=
  (walk [res.tree]).filterMap (fun n =>
    match n.nodeName with
    | some nm =>
        if nm = newName then
          some ("Name " ++ newName ++ " already exists in "
            ++ res.path ++ ":" ++ toString n.lineno)
        else none
    | none => none)

/-- What `RopeProvider._resolve_symbol` hands back on success: the
defining resource plus symbol metadata. -/
structure ResolvedSymbol where
  resource : Resource
  name : String
  qualifiedName : String
  type : String

/-- The `RenameResult` fields the claims inspect. -/
structure RenameResult where
  success : Bool
  errorType : Option String := none
  conflicts : List String := []
  filesModified : List String := []
deriving DecidableEq

/-- `RopeProvider.rename_symbol`, with the external pieces as parameters:
`resolve` models `_resolve_symbol` over the rope project and `doRename`
models the Rope library mutation (`Rename(...).get_changes` +
`project.do`), returning the new project state and the modified paths.
The conflict check runs before any mutation; a non-empty conflict list
short-circuits into a returned `naming_conflict` failure. -/
def ropeRenameSymbol (project : List Resource)
    (resolve : String → Option ResolvedSymbol)
    (doRename : List Resource → List Resource × List String)
    (symbolName newName : String) : List Resource × RenameResult :=
  match resolve symbolName with
  | none =>
      (project, RenameResult.mk false (some "symbol_not_found") [] [])
  | some info =>
      let conflicts := checkRenameConflicts info.resource newName
      if conflicts.isEmpty then
        let r := doRename project
        (r.1, RenameResult.mk true none [] r.2)
      else
        (project, RenameResult.mk false (some "naming_conflict")
          conflicts [])

/-- Claim C6: when the proposed new name collides with an existing
definition (any AST node carrying that `name`) in the symbol's resource,
`rename_symbol` returns `success=False` with `error_kind=naming_conflict`
and a non-empty conflict list enumerating exactly the colliding nodes,
and the project state is returned untouched — for *every* possible
mutation function, i.e. the conflict check precedes any mutation. -/
theorem c6_rename_conflict_leaves_files_untouched
    (project : List Resource)
    (resolve : String → Option ResolvedSymbol)
    (doRename : List Resource → List Resource × List String)
    (symbolName newName : String) (info : ResolvedSymbol)
    (hres : resolve symbolName = some info)
    (hcol : ∃ n ∈ walk [info.resource.tree], n.nodeName = some newName) :
    (ropeRenameSymbol project resolve doRename symbolName newName).1
        = project
    ∧ (ropeRenameSymbol project resolve doRename symbolName
        newName).2.success = false
    ∧ (ropeRenameSymbol project resolve doRename symbolName
        newName).2.errorType = some "naming_conflict"
    ∧ (ropeRenameSymbol project resolve doRename symbolName
        newName).2.conflicts ≠ []
    ∧ (ropeRenameSymbol project resolve doRename symbolName
        newName).2.conflicts.length
        = ((walk [info.resource.tree]).filter
            (fun n => decide (n.nodeName = some newName))).length := by
  obtain ⟨n, hn, hname⟩ := hcol
  have hmem : ("Name " ++ newName ++ " already exists in "
      ++ info.resource.path ++ ":" ++ toString n.lineno)
      ∈ checkRenameConflicts info.resource newName := by
    apply List.mem_filterMap.mpr
    exact ⟨n, hn, by simp [hname]⟩
  have hne : checkRenameConflicts info.resource newName ≠ [] := by
    intro h
    rw [h] at hmem
    exact absurd hmem (List.not_mem_nil _)
  have hempty : (checkRenameConflicts info.resource newName).isEmpty
      = false := by
    cases hv : checkRenameConflicts info.resource newName with
    | nil => exact absurd hv hne
    | cons a t => simp [List.isEmpty]
  have hlen : (checkRenameConflicts info.resource newName).length
      = ((walk [info.resource.tree]).filter
          (fun n => decide (n.nodeName = some newName))).length := by
    unfold checkRenameConflicts
    rw [List.length_filterMap_eq_countP, ← List.countP_eq_length_filter]
    apply List.countP_congr
    intro x _
    cases hx : x.nodeName with
    | none => simp [hx]
    | some nm => by_cases hnm : nm = newName <;> simp [hx, hnm]
  refine ⟨?_, ?_, ?_, ?_, ?_⟩ <;>
    simp [ropeRenameSymbol, hres, hempty, hne, hlen]

/-- Witness fixture: a module defining `process_data` and `handle_data`. -/
def sampleModuleTree : Ast :=
  Ast.other none 0
    [Ast.functionDef "process_data" 1 [], Ast.functionDef "handle_data" 4 []]

/-- Witness fixture: the file holding `sampleModuleTree`. -/
def sampleResource : Resource :=
  Resource.mk "mod.py" "def process_data...def handle_data..."
    sampleModuleTree

/-- Witness fixture: resolution of `process_data` in `sampleResource`. -/
def sampleResolve : String → Option ResolvedSymbol :=
  fun s =>
    if s = "process_data" then
      some (ResolvedSymbol.mk sampleResource "process_data"
        "mod.process_data" "function")
    else none

/-- Witness for C6: renaming `process_data` to the already-defined
`handle_data` returns a `naming_conflict` failure and leaves the project
untouched even under a destructive mutation function. -/
theorem c6_rename_conflict_leaves_files_untouched_witness :
    (ropeRenameSymbol [sampleResource] sampleResolve (fun _ => ([], []))
        "process_data" "handle_data").1 = [sampleResource]
    ∧ (ropeRenameSymbol [sampleResource] sampleResolve (fun _ => ([], []))
        "process_data" "handle_data").2.success = false
    ∧ (ropeRenameSymbol [sampleResource] sampleResolve (fun _ => ([], []))
        "process_data" "handle_data").2.errorType
        = some "naming_conflict"
    ∧ (ropeRenameSymbol [sampleResource] sampleResolve (fun _ => ([], []))
        "process_data" "handle_data").2.conflicts ≠ [] := by
  have hw : walk [sampleResource.tree]
      = [sampleModuleTree, Ast.functionDef "process_data" 1 [],
         Ast.functionDef "handle_data" 4 []] := rfl
  have h := c6_rename_conflict_leaves_files_untouched [sampleResource]
    sampleResolve (fun _ => ([], [])) "process_data" "handle_data"
    (ResolvedSymbol.mk sampleResource "process_data" "mod.process_data"
      "function")
    rfl
    ⟨Ast.functionDef "handle_data" 4 [], by rw [hw]; simp, rfl⟩
  exact ⟨h.1, h.2.1, h.2.2.1, h.2.2.2.1⟩

/-- The `ExtractableElement` payload built by
`_find_extractable_elements` (`ElementInfo` in the source). -/
structure ElementInfo where
  id : String
  type : String
  code : String
  location : String
  extractable : Bool
deriving DecidableEq

/-- `RopeProvider._find_function_node(tree, function_name)`: first
`ast.FunctionDef` with the requested name in walk order. -/
def findFunctionNode (tree : Ast) (functionName : String) : Option Ast :=
  (walk [tree]).find? (fun n =>
    match n with
    | .functionDef nm _ _ => decide (nm = functionName)
    | _ => false)

/-- The lambda-collecting loop of `_find_extractable_elements`: walk the
function node's subtree, keep only `ast.Lambda` nodes, and number them
`lambda_1`, `lambda_2`, … in traversal order (`lambda_count` is
incremented before use).  `unparse` models `ast.unparse`. -/
def collectLambdas (unparse : Ast → String) (info : ResolvedSymbol) :
    Nat → List Ast → List ElementInfo
  | _, [] => []
  | count, n :: rest =>
      if n.isLambda then
        ElementInfo.mk
            (info.qualifiedName ++ ".lambda_" ++ toString (count + 1))
            "lambda" (unparse n)
            (info.resource.path ++ ":" ++ toString n.lineno) true
          :: collectLambdas unparse info (count + 1) rest
      else collectLambdas unparse info count rest

/-- `RopeProvider._find_extractable_elements(project, function_info)`:
locate the function node by name, then collect the lambdas of its own
subtree; an unlocatable node yields the empty element list. -/
def findExtractableElements (unparse : Ast → String)
    (info : ResolvedSymbol) : List ElementInfo :=
  match findFunctionNode info.resource.tree info.name with
  | none => []
  | some fn => collectLambdas unparse info 0 (walk [fn])

/-- The `ShowResult` fields the claims inspect. -/
structure ShowResult where
  success : Bool
  errorType : Option String := none
  functionName : String := ""
  extractableElements : List ElementInfo := []
deriving DecidableEq

/-- `RopeProvider.show_function(params)`: resolve the target; a missing
symbol or a non-function resolution is a returned `function_not_found`
failure; otherwise return the extractable elements. -/
def showFunction (resolve : String → Option ResolvedSymbol)
    (unparse : Ast → String) (functionName : String) : ShowResult :=
  match resolve functionName with
  | none => ShowResult.mk false (some "function_not_found") "" []
  | some info =>
      if info.type = "function" then
        ShowResult.mk true none functionName
          (findExtractableElements unparse info)
      else ShowResult.mk false (some "function_not_found") "" []

theorem collectLambdas_cons_lambda (unparse : Ast → String)
    (info : ResolvedSymbol) (n : Ast) (rest : List Ast) (count : Nat)
    (h : n.isLambda = true) :
    collectLambdas unparse info count (n :: rest)
      = ElementInfo.mk
          (info.qualifiedName ++ ".lambda_" ++ toString (count + 1))
          "lambda" (unparse n)
          (info.resource.path ++ ":" ++ toString n.lineno) true
        :: collectLambdas unparse info (count + 1) rest := by
  simp [collectLambdas, h]

theorem collectLambdas_cons_other (unparse : Ast → String)
    (info : ResolvedSymbol) (n : Ast) (rest : List Ast) (count : Nat)
    (h : n.isLambda = false) :
    collectLambdas unparse info count (n :: rest)
      = collectLambdas unparse info count rest := by
  simp [collectLambdas, h]

theorem collectLambdas_length (unparse : Ast → String)
    (info : ResolvedSymbol) :
    ∀ (nodes : List Ast) (count : Nat),
      (collectLambdas unparse info count nodes).length
        = nodes.countP Ast.isLambda := by
  intro nodes
  induction nodes with
  | nil => intro count; simp [collectLambdas, List.countP_nil]
  | cons n rest ih =>
    intro count
    cases hl : n.isLambda with
    | true =>
        rw [collectLambdas_cons_lambda unparse info n rest count hl]
        simp [List.countP_cons, hl, ih]
    | false =>
        rw [collectLambdas_cons_other unparse info n rest count hl]
        simp [List.countP_cons, hl, ih]

theorem collectLambdas_mem (unparse : Ast → String)
    (info : ResolvedSymbol) :
    ∀ (nodes : List Ast) (count : Nat) (e : ElementInfo),
      e ∈ collectLambdas unparse info count nodes →
      e.type = "lambda" ∧ e.extractable = true := by
  intro nodes
  induction nodes with
  | nil => intro count e he; simp [collectLambdas] at he
  | cons n rest ih =>
    intro count e he
    cases hl : n.isLambda with
    | true =>
        rw [collectLambdas_cons_lambda unparse info n rest count hl] at he
        rcases List.mem_cons.mp he with rfl | he2
        · exact ⟨rfl, rfl⟩
        · exact ih (count + 1) e he2
    | false =>
        rw [collectLambdas_cons_other unparse info n rest count hl] at he
        exact ih count e he

theorem collectLambdas_map_id (unparse : Ast → String)
    (info : ResolvedSymbol) :
    ∀ (nodes : List Ast) (count : Nat),
      (collectLambdas unparse info count nodes).map ElementInfo.id
        = (List.range (collectLambdas unparse info count
            nodes).length).map
            (fun j => info.qualifiedName ++ ".lambda_"
              ++ toString (count + j + 1)) := by
  intro nodes
  induction nodes with
  | nil => intro count; simp [collectLambdas]
  | cons n rest ih =>
    intro count
    cases hl : n.isLambda with
    | true =>
        rw [collectLambdas_cons_lambda unparse info n rest count hl]
        simp only [List.map_cons, List.length_cons,
          List.range_succ_eq_map, List.map_map]
        congr 1
        rw [ih (count + 1)]
        apply List.map_congr_left
        intro j _
        simp only [Function.comp]
        congr 2
        omega
    | false =>
        rw [collectLambdas_cons_other unparse info n rest count hl]
        exact ih count

/-- Claim C9: when `show_function` resolves its target as a function and
the function node is located, every returned element has kind `lambda`
and `extractable=true`, the element count equals the number of lambda
nodes in the function's own subtree (comprehension nodes are not lambda
nodes and contribute zero), and the element ids are
`<qualified_function_name>.lambda_<ordinal>` with ordinals `1, 2, …`
assigned in first-seen traversal order. -/
theorem c9_show_function_lambda_elements
    (resolve : String → Option ResolvedSymbol) (unparse : Ast → String)
    (functionName : String) (info : ResolvedSymbol) (fn : Ast)
    (hres : resolve functionName = some info)
    (htype : info.type = "function")
    (hfn : findFunctionNode info.resource.tree info.name = some fn) :
    (showFunction resolve unparse functionName).success = true
    ∧ (showFunction resolve unparse functionName).extractableElements
        = collectLambdas unparse info 0 (walk [fn])
    ∧ (showFunction resolve unparse
        functionName).extractableElements.length
        = (walk [fn]).countP Ast.isLambda
    ∧ (∀ e ∈ (showFunction resolve unparse
          functionName).extractableElements,
        e.type = "lambda" ∧ e.extractable = true)
    ∧ (showFunction resolve unparse
        functionName).extractableElements.map ElementInfo.id
        = (List.range (showFunction resolve unparse
            functionName).extractableElements.length).map
            (fun j => info.qualifiedName ++ ".lambda_"
              ++ toString (j + 1))
    ∧ (∀ lineno children,
        (Ast.comprehension lineno children).isLambda = false) := by
  have hlist : (showFunction resolve unparse
      functionName).extractableElements
      = collectLambdas unparse info 0 (walk [fn]) := by
    simp [showFunction, hres, htype, findExtractableElements, hfn]
  have hsucc : (showFunction resolve unparse functionName).success
      = true := by
    simp [showFunction, hres, htype]
  refine ⟨hsucc, hlist, ?_, ?_, ?_, fun _ _ => rfl⟩
  · rw [hlist]
    exact collectLambdas_length unparse info (walk [fn]) 0
  · rw [hlist]
    exact fun e he => collectLambdas_mem unparse info (walk [fn]) 0 e he
  · rw [hlist]
    have h := collectLambdas_map_id unparse info (walk [fn]) 0
    simpa using h

/-- Witness fixture: a function containing three lambdas and one list
comprehension. -/
def showTree : Ast :=
  Ast.functionDef "process" 1
    [Ast.lambdaE 2 [], Ast.comprehension 3 [], Ast.lambdaE 5 [],
     Ast.lambdaE 7 []]

/-- Witness fixture: the file holding `showTree` at module level. -/
def showResource : Resource :=
  Resource.mk "mod.py" "def process(): ..." (Ast.other none 0 [showTree])

/-- Witness fixture: resolution of `process` in `showResource`. -/
def showResolve : String → Option ResolvedSymbol :=
  fun s =>
    if s = "process" then
      some (ResolvedSymbol.mk showResource "process" "mod.process"
        "function")
    else none

/-- Witness fixture: `ast.unparse` stand-in. -/
def showUnparse : Ast → String :=
  fun _ => "lambda ..."

/-- Witness for C9: showing a function with three lambdas and one list
comprehension yields exactly three elements with ids `lambda_1`,
`lambda_2`, `lambda_3`. -/
theorem c9_show_function_lambda_elements_witness :
    (showFunction showResolve showUnparse "process").success = true
    ∧ (showFunction showResolve showUnparse
        "process").extractableElements.length = 3
    ∧ (showFunction showResolve showUnparse
        "process").extractableElements.map ElementInfo.id
        = ["mod.process.lambda_1", "mod.process.lambda_2",
           "mod.process.lambda_3"] := by
  have h := c9_show_function_lambda_elements showResolve showUnparse
    "process"
    (ResolvedSymbol.mk showResource "process" "mod.process" "function")
    showTree rfl rfl rfl
  have hcount : (walk [showTree]).countP Ast.isLambda = 3 := by decide
  have hlen := h.2.2.1.trans hcount
  have hmap := h.2.2.2.2.1
  rw [hlen] at hmap
  exact ⟨h.1, hlen, hmap.trans (by decide)⟩

/-! ## Symbol search (`find_symbols` / `_matches_pattern` in `rope.py`,
with `fnmatch.fnmatch` modelled after CPython's `fnmatch.translate`) -/

/-- One member of a glob character class `[…]`: a single character or an
inclusive character range `a-z`. -/
inductive ClassItem where
  | single (c : Char)
  | range (lo hi : Char)
deriving DecidableEq

/-- A token of the translated glob pattern: `*`, `?`, a literal
character, or a (possibly negated) character class. -/
inductive GlobTok where
  | star
  | anyOne
  | lit (c : Char)
  | cls (neg : Bool) (items : List ClassItem)
deriving DecidableEq

/-- Parse the characters between `[` and `]` into class members; `a-b`
becomes a range, a trailing `-` stays literal (regex class semantics). -/
def parseClassItems : List Char → List ClassItem
  | a :: '-' :: b :: rest => .range a b :: parseClassItems rest
  | a :: rest => .single a :: parseClassItems rest
  | [] => []

/-- The `[`-scan of `fnmatch.translate`: after the optional `!`, a first
`]` is a literal member, then the next `]` closes the class.  Returns the
class body and the remainder of the pattern, or `none` when no closing
`]` exists (in which case `[` is a literal character). -/
def classSplit (body : List Char) : Option (List Char × List Char) :=
  match body with
  | ']' :: rest =>
      match rest.findIdx? (fun ch => decide (ch = ']')) with
      | none => none
      | some j => some (']' :: rest.take j, rest.drop (j + 1))
  | _ =>
      match body.findIdx? (fun ch => decide (ch = ']')) with
      | none => none
      | some j => some (body.take j, body.drop (j + 1))

/-- Step-bounded body of `fnmatch.translate`'s scanning loop; each step
consumes at least one pattern character, so fuel
`pattern.length` suffices. -/
def translateGlobAux : Nat → List Char → List GlobTok
  | _, [] => []
  | 0, _ :: _ => []
  | fuel + 1, '*' :: ps => .star :: translateGlobAux fuel ps
  | fuel + 1, '?' :: ps => .anyOne :: translateGlobAux fuel ps
  | fuel + 1, '[' :: ps =>
      let body := if ps.head? = some '!' then ps.tail else ps
      match classSplit body with
      | none => .lit '[' :: translateGlobAux fuel ps
      | some (stuff, rest) =>
          .cls (decide (ps.head? = some '!')) (parseClassItems stuff)
            :: translateGlobAux fuel rest
  | fuel + 1, c :: ps => .lit c :: translateGlobAux fuel ps

/-- `fnmatch.translate(pattern)` as a token list. -/
def translateGlob (pat : List Char) : List GlobTok :=
  translateGlobAux pat.length pat

/-- Membership of a character in one class item. -/
def classItemMatch (it : ClassItem) (c : Char) : Bool :=
  match it with
  | .single a => decide (a = c)
  | .range lo hi => decide (lo ≤ c ∧ c ≤ hi)

/-- Membership of a character in a class body. -/
def classMatch (items : List ClassItem) (c : Char) : Bool :=
  items.any (fun it => classItemMatch it c)

/-- Step-bounded full-match of a translated glob against a string
(the translated regex is anchored with `\Z` and compiled with `re.DOTALL`,
so `?` and classes consume exactly one arbitrary character and the whole
subject must be consumed).  Each step shrinks
`tokens.length + subject.length`, so that sum suffices as fuel. -/
def matchToksAux : Nat → List GlobTok → List Char → Bool
  | _, [], [] => true
  | _, [], _ :: _ => false
  | 0, _ :: _, _ => false
  | fuel + 1, .star :: ts, [] => matchToksAux fuel ts []
  | fuel + 1, .star :: ts, c :: s =>
      matchToksAux fuel ts (c :: s) || matchToksAux fuel (.star :: ts) s
  | _, .anyOne :: _, [] => false
  | fuel + 1, .anyOne :: ts, _ :: s => matchToksAux fuel ts s
  | _, .lit _ :: _, [] => false
  | fuel + 1, .lit c :: ts, d :: s =>
      decide (c = d) && matchToksAux fuel ts s
  | _, .cls _ _ :: _, [] => false
  | fuel + 1, .cls neg items :: ts, d :: s =>
      (classMatch items d != neg) && matchToksAux fuel ts s

/-- Full-match of a translated pattern. -/
def matchToks (toks : List GlobTok) (s : List Char) : Bool :=
  matchToksAux (toks.length + s.length) toks s

/-- `fnmatch.fnmatchcase(name, pat)` (POSIX `normcase` is the
identity). -/
def fnmatchCase (name pat : List Char) : Bool :=
  matchToks (translateGlob pat) name

/-- `str.lower()` (ASCII case mapping; the symbols and patterns involved
are Python identifiers and glob patterns). -/
def lowerChars (cs : List Char) : List Char :=
  cs.map Char.toLower

/-- `str.lower()` on a string value. -/
def lowerStr (s : String) : String :=
  String.mk (lowerChars s.data)

/-- Does the haystack start with the needle? (prefix test used by the
substring scan). -/
def startsWithChars : List Char → List Char → Bool
  | [], _ => true
  | _ :: _, [] => false
  | a :: as, b :: bs => decide (a = b) && startsWithChars as bs

/-- Python's `needle in haystack` on strings: contiguous containment
(the empty needle is contained everywhere). -/
def substrContains (hay needle : List Char) : Bool :=
  match hay with
  | [] => needle.isEmpty
  | _ :: t => startsWithChars needle hay || substrContains t needle

/-- `RopeProvider._matches_pattern(symbol_name, pattern)`: glob matching
when the pattern holds `*` or `?`, otherwise substring containment; the
symbol name is lowercased here, the pattern was lowercased by the
caller. -/
def matchesPattern (symbolName pattern : String) : Bool :=
  if pattern.data.contains '*' || pattern.data.contains '?' then
    fnmatchCase (lowerChars symbolName.data) pattern.data
  else
    substrContains (lowerChars symbolName.data) pattern.data

/-- The `SymbolInfo` fields `find_symbols` matching inspects. -/
structure SymbolInfo where
  name : String
  qualifiedName : String
  type : String
deriving DecidableEq

/-- The `FindResult` fields the claim inspects (`matched` models the
source's `matches` field, which is a reserved word in Lean). -/
structure FindResult where
  success : Bool
  pattern : String
  matched : List SymbolInfo
  totalCount : Nat
deriving DecidableEq

/-- `RopeProvider.find_symbols(params)`: lowercase the pattern once,
match every module's symbols in traversal order, report the first 100
matches and the uncapped total count.  `moduleSymbols` is the per-file
symbol lists produced by `_extract_module_symbols` over
`project.get_files()`. -/
def findSymbols (moduleSymbols : List (List SymbolInfo))
    (rawPattern : String) : FindResult :=
  let pat := lowerStr rawPattern
  let ms := moduleSymbols.flatten.filter
    (fun s => matchesPattern s.name pat)
  FindResult.mk true rawPattern (ms.take 100) ms.length

/-- Claim C8: `find_symbols` matching is case-insensitive (it depends
only on the lowercased symbol name and lowercased pattern); a pattern
containing `*` or `?` is matched glob-style and any other pattern by
substring containment; the returned matches are the first 100 matching
symbols in traversal order (hence at most 100), while `total_count` is
the true uncapped number of matches. -/
theorem c8_find_symbols_pattern_cap_count
    (moduleSymbols : List (List SymbolInfo)) (rawPattern : String) :
    (findSymbols moduleSymbols rawPattern).matched
        = (moduleSymbols.flatten.filter
            (fun s => matchesPattern s.name (lowerStr rawPattern))).take
            100
    ∧ (findSymbols moduleSymbols rawPattern).matched.length ≤ 100
    ∧ (findSymbols moduleSymbols rawPattern).totalCount
        = (moduleSymbols.flatten.filter
            (fun s => matchesPattern s.name (lowerStr rawPattern))).length
    ∧ (findSymbols moduleSymbols rawPattern).success = true
    ∧ (∀ n1 n2 p1 p2 : String,
        lowerChars n1.data = lowerChars n2.data →
        lowerChars p1.data = lowerChars p2.data →
        matchesPattern n1 (lowerStr p1) = matchesPattern n2 (lowerStr p2))
    ∧ (∀ nm p : String,
        (p.data.contains '*' || p.data.contains '?') = true →
        matchesPattern nm p = fnmatchCase (lowerChars nm.data) p.data)
    ∧ (∀ nm p : String,
        (p.data.contains '*' || p.data.contains '?') = false →
        matchesPattern nm p
          = substrContains (lowerChars nm.data) p.data) := by
  refine ⟨rfl, ?_, rfl, rfl, ?_, ?_, ?_⟩
  · have h := List.length_take 100
      (moduleSymbols.flatten.filter
        (fun s => matchesPattern s.name (lowerStr rawPattern)))
    simp only [findSymbols]
    omega
  · intro n1 n2 p1 p2 hn hp
    have hd1 : (lowerStr p1).data = lowerChars p1.data := rfl
    have hd2 : (lowerStr p2).data = lowerChars p2.data := rfl
    unfold matchesPattern
    rw [hd1, hd2, hn, hp]
  · intro nm p h
    rw [Bool.or_eq_true, List.elem_iff, List.elem_iff] at h
    simp [matchesPattern, h]
  · intro nm p h
    rw [Bool.or_eq_false_iff] at h
    have h1 : '*' ∉ p.data := by
      intro hm
      have hc : p.data.contains '*' = true := List.elem_iff.mpr hm
      rw [h.1] at hc
      exact Bool.noConfusion hc
    have h2 : '?' ∉ p.data := by
      intro hm
      have hc : p.data.contains '?' = true := List.elem_iff.mpr hm
      rw [h.2] at hc
      exact Bool.noConfusion hc
    simp [matchesPattern, h1, h2]

/-- Witness for C8: searching `*user*` over `user_login`, `UserManager`,
`admin_panel` matches the first two case-insensitively (glob dispatch
fires because the pattern contains `*`), with `total_count = 2`. -/
theorem c8_find_symbols_pattern_cap_count_witness :
    (findSymbols
        [[SymbolInfo.mk "user_login" "m.user_login" "function",
          SymbolInfo.mk "UserManager" "m.UserManager" "class",
          SymbolInfo.mk "admin_panel" "m.admin_panel" "function"]]
        "*user*").matched
      = [SymbolInfo.mk "user_login" "m.user_login" "function",
         SymbolInfo.mk "UserManager" "m.UserManager" "class"]
    ∧ (findSymbols
        [[SymbolInfo.mk "user_login" "m.user_login" "function",
          SymbolInfo.mk "UserManager" "m.UserManager" "class",
          SymbolInfo.mk "admin_panel" "m.admin_panel" "function"]]
        "*user*").totalCount = 2
    ∧ matchesPattern "UserManager" (lowerStr "*user*")
      = fnmatchCase (lowerChars "UserManager".data)
          (lowerStr "*user*").data := by
  have h := c8_find_symbols_pattern_cap_count
    [[SymbolInfo.mk "user_login" "m.user_login" "function",
      SymbolInfo.mk "UserManager" "m.UserManager" "class",
      SymbolInfo.mk "admin_panel" "m.admin_panel" "function"]]
    "*user*"
  refine ⟨h.1.trans (by decide), h.2.2.1.trans (by decide), ?_⟩
  exact h.2.2.2.2.2.1 "UserManager" (lowerStr "*user*") (by decide)

end RefactorMcp
